import Mathlib

/-!
# Verification of the ssb-conn connection scheduler

A shallow embedding of the three source files of the `ssb-conn` repository
(`conn-scheduler.ts`, `conn.ts`, `gossip.ts`) together with models of the
external connection pools (`ssb-conn-db`, `ssb-conn-hub`, `ssb-conn-staging`,
`ssb-conn-query`) that the sources drive.  The pools themselves are not part
of the repository, so their operations and query projections are modelled
from the specification; every such definition carries a doc comment starting
with `Modelled from the spec:`.  Everything translated directly from the
TypeScript sources keeps the source's names.

Addresses are modelled as natural numbers; peer records are a flat structure
of the fields the scheduler reads.  Wall-clock time is a natural number of
milliseconds supplied through the environment.  Randomness (the 30% shuffle
chance and the shuffle itself) and the external library predicates
(`passesGroupDebounce`, `passesExpBackoff`, the `ip` host classifiers and
`hasNetwork`) are oracle parameters of the environment, since the scheduler
treats them as black boxes.
-/

/-- A peer record: the fields of the DB/staging/hub entry values that the
scheduler reads.  `key` is the peer's identity (FeedId), `attempts` and
`failures` are rolling dial statistics, `pingRtt` stands for the
`ping.rtt.mean` statistic. -/
structure PeerData where
  key : Option Nat := none
  host : Option String := none
  source : Option String := none
  ptype : Option String := none
  autoconnect : Bool := true
  stateChange : Nat := 0
  stagingUpdated : Nat := 0
  attempts : Nat := 0
  failures : Nat := 0
  pingRtt : Option Nat := none
  deriving Repr, DecidableEq

/-- A peer as seen by `ssb-conn-query`: an address paired with its record. -/
abbrev Peer := Nat × PeerData

/-- In-flight hub states.  Entries that are `disconnected` are removed from
the hub registry, so only the two live states are represented. -/
inductive HubSt where
  | connecting
  | connected
  deriving Repr, DecidableEq

/-- The joint state of the three pools: the durable address book `db`, the
ephemeral `staging` buffer, and the live `hub` registry.  `dat` is the
per-address record snapshot the pools share. -/
structure St where
  dat : Nat → PeerData
  db : List Nat
  staging : List Nat
  hub : List (Nat × HubSt)

/-- Ambient collaborators of the scheduler: the wall clock, the social graph
hops table, the `ip` host classifiers, the (debounced) network probe, the
`ssb-conn-query` combinators `passesGroupDebounce`/`passesExpBackoff`, the
`gossip.seed` configuration flag, and the random oracles used by each class
pass (`chooseShuffle k` is the outcome of `Math.random() <= 0.3` in pass `k`,
`shuffle k` the permutation produced by `shufflePeers`). -/
structure Env where
  now : Nat
  hops : Nat → Option Int
  ipLoopback : String → Bool
  ipPrivate : String → Bool
  hasNetwork : Bool
  groupDebounce : Nat → List Peer → List Peer
  expBackoff : Nat → Nat → Peer → Bool
  confSeed : Bool
  chooseShuffle : Nat → Bool
  shuffle : Nat → List Peer → List Peer

/-- Modelled from the spec: `hub.getState(addr)` returns the current state of
the address in the hub registry, or nothing. -/
def hubStateOf (s : St) (a : Nat) : Option HubSt :=
  (s.hub.find? (fun e => e.1 == a)).map (fun e => e.2)

/-- Modelled from the spec: `peersInConnection()` — hub entries in
{connecting, connected}, paired with their records. -/
def peersInConnection (s : St) : List Peer :=
  s.hub.map (fun e => (e.1, s.dat e.1))

/-- Modelled from the spec: `peersConnected()` — hub entries in {connected}
only. -/
def peersConnected (s : St) : List Peer :=
  (s.hub.filter (fun e => e.2 == HubSt.connected)).map (fun e => (e.1, s.dat e.1))

/-- Modelled from the spec: `peersConnectable('db')` — DB entries whose hub
state is not connecting/connected. -/
def peersConnectableDb (s : St) : List Peer :=
  (s.db.filter (fun a => (hubStateOf s a).isNone)).map (fun a => (a, s.dat a))

/-- Modelled from the spec: `peersConnectable('staging')` — staging entries
whose hub state is not connecting/connected. -/
def peersConnectableStaging (s : St) : List Peer :=
  (s.staging.filter (fun a => (hubStateOf s a).isNone)).map (fun a => (a, s.dat a))

namespace Hub

/-- Modelled from the spec: `hub.connect(addr)` marks the entry `connecting`
(no-op when an active entry already exists), and the InterpoolGlue unstages
the address atomically.  The record snapshot `dat` is unchanged: rolling
statistics are updated by the pools between ticks, not read back within one
tick. -/
def connect (a : Nat) (s : St) : St :=
  if (hubStateOf s a).isSome then s
  else { s with hub := s.hub ++ [(a, HubSt.connecting)],
                staging := s.staging.filter (fun x => x != a) }

/-- Modelled from the spec: `hub.disconnect(addr)` tears down the transport
and removes the entry from the live registry; idempotent on addresses
without an entry. -/
def disconnect (a : Nat) (s : St) : St :=
  { s with hub := s.hub.filter (fun e => e.1 != a) }

end Hub

namespace Staging

/-- Modelled from the spec: `staging.stage(addr, data)` inserts if not
present and returns boolean success; the stored record gets a fresh
`stagingUpdated` timestamp. -/
def stage (env : Env) (a : Nat) (d : PeerData) (s : St) : Bool × St :=
  if a ∈ s.staging then (false, s)
  else (true, { s with staging := s.staging ++ [a],
                       dat := fun x => if x = a then { d with stagingUpdated := env.now } else s.dat x })

/-- Modelled from the spec: `staging.unstage(addr)` removes the entry. -/
def unstage (a : Nat) (s : St) : St :=
  { s with staging := s.staging.filter (fun x => x != a) }

end Staging

namespace CONN

/-- Source `CONN.stage` from `src/conn.ts`: refuse when the hub has a state for the
address, otherwise delegate to the staging pool's insert. -/
def stage (env : Env) (a : Nat) (d : PeerData) (s : St) : Bool × St :=
  if (hubStateOf s a).isSome then (false, s)
  else Staging.stage env a d s

/-- Source `CONN.ping` timeout computation from `src/conn.ts`: JavaScript
`(config.timers && config.timers.ping) || DEFAULT` followed by
`Math.max(MIN, Math.min(timeout, MAX))`.  `timersPing = none` models an
absent `config.timers`/`timers.ping`; a configured `0` is falsy in
JavaScript, so it also falls back to the default. -/
def pingTimeout (timersPing : Option Int) : Int :=
  let targetDefault : Int := 5 * 60000
  let t0 : Int :=
    match timersPing with
    | none => targetDefault
    | some v => if v = 0 then targetDefault else v
  max 10000 (min t0 (30 * 60000))

end CONN

/-- Source `neverJustOne` from `src/conn-scheduler.ts`. -/
def neverJustOne (x : Nat) : Nat :=
  if x = 1 then x + 1 else x

/-- Source `take(n)` from `src/conn-scheduler.ts`: `arr.slice(0, Math.max(n, 0))`. -/
def takeN (n : Nat) {α : Type} (l : List α) : List α :=
  l.take n

/-- The comparison used by `sortByStateChange`: ascending `stateChange`. -/
def leSC (p q : Peer) : Prop :=
  p.2.stateChange ≤ q.2.stateChange

instance : DecidableRel leSC := fun p q => Nat.decLe _ _

instance : IsTotal Peer leSC := ⟨fun p q => Nat.le_total _ _⟩

instance : IsTrans Peer leSC := ⟨fun _ _ _ h h' => Nat.le_trans h h'⟩

/-- Modelled from the spec: `sortByStateChange` from `ssb-conn-query` —
stable sort ascending by `stateChange`. -/
def sortByStateChange (l : List Peer) : List Peer :=
  List.insertionSort leSC l

/-- Modelled from the spec: `hasPinged` — `ping.rtt.mean` is defined. -/
def hasPinged (p : Peer) : Bool :=
  p.2.pingRtt.isSome

/-- Modelled from the spec: `hasNoAttempts` — no recorded dial attempts. -/
def hasNoAttempts (p : Peer) : Bool :=
  p.2.attempts == 0

/-- Modelled from the spec: `hasSuccessfulAttempts` — at least one
connection completed (more attempts than failures). -/
def hasSuccessfulAttempts (p : Peer) : Bool :=
  p.2.failures < p.2.attempts

/-- Modelled from the spec: `hasOnlyFailedAttempts` — at least one attempt,
all failed. -/
def hasOnlyFailedAttempts (p : Peer) : Bool :=
  p.2.attempts != 0 && p.2.attempts == p.2.failures

/-- Source `isLegacy` from `src/conn-scheduler.ts`. -/
def isLegacy (p : Peer) : Bool :=
  hasSuccessfulAttempts p && !hasPinged p

/-- The host string of a peer (`p[1].host`), defaulting for absent hosts. -/
def hostOf (p : Peer) : String :=
  p.2.host.getD ""

/-- Source `isOffline` from `src/conn-scheduler.ts`, with the 1-second-debounced
`hasNetwork()` value of the current tick supplied by the environment. -/
def isOffline (env : Env) (p : Peer) : Bool :=
  if env.ipLoopback (hostOf p) || hostOf p == "localhost" then false
  else !env.hasNetwork

/-- Source `canBeConnected` from `src/conn-scheduler.ts`. -/
def canBeConnected (env : Env) (p : Peer) : Bool :=
  !isOffline env p

/-- Source `isLocal` from `src/conn-scheduler.ts`. -/
def isLocal (env : Env) (p : Peer) : Bool :=
  !env.ipLoopback (hostOf p) && env.ipPrivate (hostOf p) &&
    (p.2.source == some "local" || p.2.ptype == some "lan")

/-- Source `weBlockThem` from `src/conn-scheduler.ts`: the record's key has hops
`-1`; records without a key are never blocked. -/
def weBlockThem (env : Env) (p : Peer) : Bool :=
  match p.2.key with
  | none => false
  | some k => env.hops k == some (-1)

/-- Source `weFollowThem` from `src/conn-scheduler.ts`: the record's key has hops
`h` with `0 < h ≤ 1`. -/
def weFollowThem (env : Env) (p : Peer) : Bool :=
  match p.2.key with
  | none => false
  | some k =>
    match env.hops k with
    | none => false
    | some h => decide (0 < h) && decide (h ≤ 1)

/-- The `opts` argument of `updateTheseConnections`. -/
structure UpdateOpts where
  quota : Nat
  backoffStep : Nat
  backoffMax : Nat
  groupMin : Nat

/-- The `excess` computation of `updateTheseConnections`:
`peersUp.length > quota * 2 ? peersUp.length - quota : 0`. -/
def excessOf (quota up : Nat) : Nat :=
  if quota * 2 < up then up - quota else 0

/-- The `freeSlots` computation of `updateTheseConnections`:
`neverJustOne(Math.max(quota - peersUp.length, 0))` (truncated natural
subtraction is exactly the clamped difference). -/
def freeSlotsOf (quota up : Nat) : Nat :=
  neverJustOne (quota - up)

/-- The excess disconnect list of `updateTheseConnections`:
`peersUp.z(sortByStateChange).z(take(excess))`. -/
def disconnectsOf (quota : Nat) (peersUp : List Peer) : List Peer :=
  takeN (excessOf quota peersUp.length) (sortByStateChange peersUp)

/-- The candidate pipeline of `updateTheseConnections`: connectable DB peers
matching the class predicate, minus blocked peers, minus offline peers,
minus `autoconnect=false` peers, then group-debounced and backoff-filtered. -/
def candidatesOf (env : Env) (opts : UpdateOpts) (test : Peer → Bool) (s : St) : List Peer :=
  (((((peersConnectableDb s).filter test).filter
        (fun p => !weBlockThem env p)).filter
        (fun p => canBeConnected env p)).filter
        (fun p => !(p.2.autoconnect == false)))
    |> env.groupDebounce opts.groupMin
    |>.filter (env.expBackoff opts.backoffStep opts.backoffMax)

/-- The ordering step of `updateTheseConnections`: with the 30% random
outcome `rnd` the candidates are shuffled, otherwise sorted ascending by
`stateChange`. -/
def orderedCandidatesOf (env : Env) (rnd : Bool) (shuf : List Peer → List Peer)
    (opts : UpdateOpts) (test : Peer → Bool) (s : St) : List Peer :=
  if rnd then shuf (candidatesOf env opts test s)
  else sortByStateChange (candidatesOf env opts test s)

/-- The dial list of `updateTheseConnections`: the first `freeSlots` ordered
candidates. -/
def dialsOf (env : Env) (rnd : Bool) (shuf : List Peer → List Peer)
    (opts : UpdateOpts) (test : Peer → Bool) (s : St) : List Peer :=
  takeN (freeSlotsOf opts.quota ((peersInConnection s).filter test).length)
    (orderedCandidatesOf env rnd shuf opts test s)

/-- Source `updateTheseConnections` from `src/conn-scheduler.ts`: disconnect the
excess, then dial the selected candidates.  `peersUp` and `peersDown` are
snapshots taken before any mutation, as in the source. -/
def updateTheseConnections (env : Env) (rnd : Bool) (shuf : List Peer → List Peer)
    (test : Peer → Bool) (opts : UpdateOpts) (s : St) : St :=
  let s1 := (disconnectsOf opts.quota ((peersInConnection s).filter test)).foldl
    (fun t p => Hub.disconnect p.1 t) s
  (dialsOf env rnd shuf opts test s).foldl (fun t p => Hub.connect p.1 t) s1

/-- The first block of `updateStagingNow`: stage all connectable DB peers
with `autoconnect=false` that are not blocked. -/
def stageDbStep (env : Env) (s : St) : St :=
  (((peersConnectableDb s).filter (fun p => !weBlockThem env p)).filter
      (fun p => p.2.autoconnect == false)).foldl
    (fun t p => (CONN.stage env p.1 p.2 t).2) s

/-- The second block of `updateStagingNow`: purge staged peers that are now
blocked. -/
def blockedUnstageStep (env : Env) (s : St) : St :=
  ((peersConnectableStaging s).filter (weBlockThem env)).foldl
    (fun t p => Staging.unstage p.1 t) s

/-- The third block of `updateStagingNow`: purge staged LAN peers whose
`stagingUpdated + 10 s` lies before now. -/
def lanAgeStep (env : Env) (s : St) : St :=
  (((peersConnectableStaging s).filter (fun p => p.2.ptype == some "lan")).filter
      (fun p => p.2.stagingUpdated + 10000 < env.now)).foldl
    (fun t p => Staging.unstage p.1 t) s

/-- The fourth block of `updateStagingNow`: purge staged Bluetooth peers
whose `stagingUpdated + 30 s` lies before now. -/
def btAgeStep (env : Env) (s : St) : St :=
  (((peersConnectableStaging s).filter (fun p => p.2.ptype == some "bt")).filter
      (fun p => p.2.stagingUpdated + 30000 < env.now)).foldl
    (fun t p => Staging.unstage p.1 t) s

/-- Source `updateStagingNow` from `src/conn-scheduler.ts`: the four blocks in
source order, each re-querying the pools as the source does. -/
def updateStagingNow (env : Env) (s : St) : St :=
  btAgeStep env (lanAgeStep env (blockedUnstageStep env (stageDbStep env s)))

/-- The staged-peer block of `updateHubNow`: connect to up to five staged
peers we follow. -/
def stagedFollowStep (env : Env) (s : St) : St :=
  (takeN 5 ((peersConnectableStaging s).filter (weFollowThem env))).foldl
    (fun t p => Hub.connect p.1 t) s

/-- The block purge of `updateHubNow`: disconnect connected peers that are
now blocked. -/
def blockedDisconnectStep (env : Env) (s : St) : St :=
  ((peersInConnection s).filter (weBlockThem env)).foldl
    (fun t p => Hub.disconnect p.1 t) s

/-- The frustrating-connection purge of `updateHubNow`: disconnect
in-connection peers that are not permanent (or stuck `connecting`) and whose
`stateChange + 10 s` lies before now. -/
def frustratingPurgeStep (env : Env) (s : St) : St :=
  (((peersInConnection s).filter (fun p =>
        !(hasPinged p || isLocal env p) || hubStateOf s p.1 == some HubSt.connecting)).filter
      (fun p => p.2.stateChange + 10000 < env.now)).foldl
    (fun t p => Hub.disconnect p.1 t) s

/-- The hour purge of `updateHubNow`: disconnect internet connections
(type neither `bt` nor `lan`) that have been up for an hour. -/
def hourPurgeStep (env : Env) (s : St) : St :=
  (((peersConnected s).filter (fun p =>
        p.2.ptype != some "bt" && p.2.ptype != some "lan")).filter
      (fun p => p.2.stateChange + 3600000 < env.now)).foldl
    (fun t p => Hub.disconnect p.1 t) s

/-- Class predicate of the seed pass: `p[1].source === 'seed'`. -/
def isSeedPeer (p : Peer) : Bool :=
  p.2.source == some "seed"

/-- Class predicate of the room pass: `p[1].type === 'room'`. -/
def isRoomPeer (p : Peer) : Bool :=
  p.2.ptype == some "room"

/-- Pass 0 of `updateHubNow`: the seed class, gated by `conf('seed', true)`. -/
def hubPass0 (env : Env) (s : St) : St :=
  if env.confSeed then
    updateTheseConnections env (env.chooseShuffle 0) (env.shuffle 0) isSeedPeer
      ⟨3, 2000, 600000, 1000⟩ s
  else s

/-- Pass 1 of `updateHubNow`: any peer at all, only when nothing is in
connection. -/
def hubPass1 (env : Env) (s : St) : St :=
  if (peersInConnection s).length = 0 then
    updateTheseConnections env (env.chooseShuffle 1) (env.shuffle 1) (fun _ => true)
      ⟨1, 1000, 6000, 0⟩ s
  else s

/-- Pass 2 of `updateHubNow`: rooms. -/
def hubPass2 (env : Env) (s : St) : St :=
  updateTheseConnections env (env.chooseShuffle 2) (env.shuffle 2) isRoomPeer
    ⟨10, 5000, 300000, 5000⟩ s

/-- Pass 3 of `updateHubNow`: peers that pinged. -/
def hubPass3 (env : Env) (s : St) : St :=
  updateTheseConnections env (env.chooseShuffle 3) (env.shuffle 3) hasPinged
    ⟨2, 10000, 600000, 5000⟩ s

/-- Pass 4 of `updateHubNow`: peers never attempted. -/
def hubPass4 (env : Env) (s : St) : St :=
  updateTheseConnections env (env.chooseShuffle 4) (env.shuffle 4) hasNoAttempts
    ⟨2, 30000, 1800000, 15000⟩ s

/-- Pass 5 of `updateHubNow`: peers with only failed attempts. -/
def hubPass5 (env : Env) (s : St) : St :=
  updateTheseConnections env (env.chooseShuffle 5) (env.shuffle 5) hasOnlyFailedAttempts
    ⟨3, 60000, 10800000, 300000⟩ s

/-- Pass 6 of `updateHubNow`: legacy peers. -/
def hubPass6 (env : Env) (s : St) : St :=
  updateTheseConnections env (env.chooseShuffle 6) (env.shuffle 6) isLegacy
    ⟨1, 240000, 10800000, 300000⟩ s

/-- The seven class passes of `updateHubNow`, in source order. -/
def hubPasses (env : Env) (s : St) : St :=
  hubPass6 env (hubPass5 env (hubPass4 env (hubPass3 env
    (hubPass2 env (hubPass1 env (hubPass0 env s))))))

/-- Source `updateHubNow` from `src/conn-scheduler.ts`: the seven class passes in
source order (the seed pass gated by `conf('seed', true)`, the any-peer pass
gated by an empty connection pool), then the staged-follow connects, the
block purge, the frustrating purge and the hour purge. -/
def updateHubNow (env : Env) (s : St) : St :=
  hourPurgeStep env (frustratingPurgeStep env
    (blockedDisconnectStep env (stagedFollowStep env (hubPasses env s))))

/-- The scheduler's own mutable flags, around the pool state: whether the
message log plugin is present, whether it reports ready, the timestamp of
the last foreign log message, and whether the hops table is loading. -/
structure SchedulerSt where
  hasSsbDb : Bool
  ready : Bool
  lastMessageAt : Nat
  isLoadingHops : Bool
  st : St

/-- Source `isCurrentlyDownloading` from `src/conn-scheduler.ts`:
`lastMessageAt && lastMessageAt > Date.now() - 500` (zero is falsy). -/
def isCurrentlyDownloading (env : Env) (c : SchedulerSt) : Bool :=
  c.lastMessageAt != 0 && env.now - 500 < c.lastMessageAt

/-- Source `updateNow` from `src/conn-scheduler.ts`: suppressed when the message
log exists but is not ready, while downloading, or while the hops table
loads; otherwise one tick of `updateStagingNow` followed by
`updateHubNow`. -/
def updateNow (env : Env) (c : SchedulerSt) : SchedulerSt :=
  if c.hasSsbDb && !c.ready then c
  else if isCurrentlyDownloading env c then c
  else if c.isLoadingHops then c
  else { c with st := updateHubNow env (updateStagingNow env c.st) }

/-- A legacy peer object as handled by `src/gossip.ts`: the fields that
`toAddressString`, `parseDhtAddress` and `add` read.  Absent fields are
`none` (JavaScript `undefined`). -/
structure GPeer where
  key : Option String := none
  host : Option String := none
  port : Option Nat := none
  source : Option String := none
  address : Option String := none
  deriving Repr, DecidableEq

/-- The argument of the legacy gossip methods: either an address string or a
peer object. -/
inductive GAddr where
  | str (s : String)
  | obj (p : GPeer)
  deriving Repr, DecidableEq

/-- Ambient collaborators of `src/gossip.ts`: the local identity `ssb.id`
and the `ssb-ref` primitives, which are an external library. -/
structure GossipEnv where
  selfId : String
  refIsAddress : String → Bool
  refParseAddress : String → Option GPeer
  refIsFeed : String → Bool
  refGetKeyFromAddress : String → Option String

/-- Source `toBase64` from `src/gossip.ts` on the string branch:
`s.substring(1, s.indexOf('.'))`.  For inputs containing a dot after the
first character (every well-formed FeedId) this is the characters between
position 1 and the first dot; the JavaScript corner cases of a dotless
input are not reproduced. -/
def toBase64 (s : String) : String :=
  ⟨(s.data.drop 1).takeWhile (fun c => c != '.')⟩

/-- Source `toAddressString` from `src/gossip.ts`.  JavaScript stringification of
absent `host`/`port` inside `join` is rendered as `"undefined"`/`0`. -/
def toAddressString (env : GossipEnv) (p : GPeer) : String :=
  if (p.address.map env.refIsAddress).getD false then p.address.getD ""
  else if p.source == some "dht" then
    "dht:" ++ p.host.getD "undefined" ++ "~noauth"
  else
    let protocol := if (p.host.getD "").endsWith ".onion" then "onion" else "net"
    protocol ++ ":" ++ p.host.getD "undefined" ++ ":" ++ toString (p.port.getD 0) ++
      "~shs:" ++ toBase64 (p.key.getD "")

/-- Source `isDhtAddress` from `src/gossip.ts`: `addr.substr(0, 4) === 'dht:'`. -/
def isDhtAddress (addr : String) : Bool :=
  addr.take 4 == "dht:"

/-- Source `parseDhtAddress` from `src/gossip.ts`; the `throw` branches (wrong tag,
missing components) become `none`. -/
def parseDhtAddress (addr : String) : Option GPeer :=
  let transport := (addr.splitOn "~").headD ""
  let parts := transport.splitOn ":"
  if parts.headD "" != "dht" then none
  else
    match parts.get? 1, parts.get? 2 with
    | some seed, some remoteId =>
      some { host := some (seed ++ ":" ++ remoteId), port := some 0,
             key := some (if remoteId.take 1 == "@" then remoteId else "@" ++ remoteId),
             source := some "dht" }
    | _, _ => none

/-- Source `parseAddress` from `src/gossip.ts` (the module-level helper): DHT
addresses are parsed by hand, otherwise `ref.parseAddress`, otherwise a
bare-key record for valid multiserver addresses. -/
def gossipParseAddress (env : GossipEnv) (address : String) : Option GPeer :=
  if isDhtAddress address then parseDhtAddress address
  else
    match env.refParseAddress address with
    | some legacyParsing => some legacyParsing
    | none =>
      if env.refIsAddress address then
        some { key := env.refGetKeyFromAddress address }
      else none

/-- Source `validateAddr` from `src/gossip.ts`; every `throw` becomes `none`.  The
success value is the address string paired with the parsed peer object. -/
def validateAddr (env : GossipEnv) (addr : GAddr) : Option (String × GPeer) :=
  let addressString := match addr with | .str s => s | .obj p => toAddressString env p
  let parsed? : Option GPeer :=
    match addr with | .obj p => some p | .str s => gossipParseAddress env s
  match parsed? with
  | none => none
  | some parsed =>
    match parsed.key with
    | none => none
    | some k => if env.refIsFeed k then some (addressString, parsed) else none

/-- A notification pushed to the legacy `gossip.changes()` stream. -/
structure GNotif where
  ntype : String
  peer : GPeer
  nsource : String
  deriving Repr, DecidableEq

/-- State touched by the legacy `gossip.add`: the address book (string
addresses, as the legacy surface uses them) and the accumulated
notifications. -/
structure GossipSt where
  db : List (String × GPeer)
  notifications : List GNotif
  deriving Repr, DecidableEq

/-- Modelled from the spec: `db.has(addr)`. -/
def dbHas (g : GossipSt) (a : String) : Bool :=
  g.db.any (fun e => e.1 == a)

/-- Modelled from the spec: `db.get(addr)`. -/
def dbGet (g : GossipSt) (a : String) : Option GPeer :=
  (g.db.find? (fun e => e.1 == a)).map (fun e => e.2)

/-- Modelled from the spec: `db.set(addr, data)` — upsert.  `gossip.add`
always passes a record literal carrying every field, so the merge over an
existing record is a replacement here. -/
def dbSet (g : GossipSt) (a : String) (p : GPeer) : GossipSt :=
  { g with db :=
      if dbHas g a then g.db.map (fun e => if e.1 == a then (a, p) else e)
      else g.db ++ [(a, p)] }

/-- Result of the legacy `gossip.add`: a thrown validation error, an
`undefined` early return, or the stored/parsed peer. -/
inductive AddRet where
  | threw
  | retNone
  | peer (p : GPeer)
  deriving Repr, DecidableEq

namespace Gossip

/-- Source `add` from `src/gossip.ts`: validate, drop our own identity, reject the
deprecated `'local'` source, return the existing record, or store the
record and emit a `'discover'` notification. -/
def add (env : GossipEnv) (g : GossipSt) (addr : GAddr) (source : Option String) :
    GossipSt × AddRet :=
  match validateAddr env addr with
  | none => (g, AddRet.threw)
  | some (addressString, parsed) =>
    if parsed.key == some env.selfId then (g, AddRet.retNone)
    else if source == some "local" then (g, AddRet.retNone)
    else if dbHas g addressString then
      (g, AddRet.peer ((dbGet g addressString).getD parsed))
    else
      let g1 := dbSet g addressString
        { host := parsed.host, port := parsed.port, key := parsed.key,
          address := some addressString, source := source }
      let g2 := { g1 with notifications :=
        g1.notifications ++ [⟨"discover", parsed, source.getD "manual"⟩] }
      (g2, AddRet.peer ((dbGet g2 addressString).getD parsed))

end Gossip

/-- The concrete pool state of the C4 counterexample: six connected seed
peers with one failed attempt each, and two dialable seed pubs (addresses 7
and 8) that already pinged us before. -/
def stC4 : St :=
  { dat := fun a =>
      if a ≤ 6 then { source := some "seed", attempts := 1, failures := 1 }
      else { source := some "seed", attempts := 1, pingRtt := some 50 },
    db := [7, 8],
    staging := [],
    hub := [(1, HubSt.connected), (2, HubSt.connected), (3, HubSt.connected),
            (4, HubSt.connected), (5, HubSt.connected), (6, HubSt.connected)] }

/-- The environment of the C4 counterexample: nobody blocked, network up,
debounce and backoff pass everything, deterministic sorting. -/
def envC4 : Env :=
  { now := 0, hops := fun _ => none, ipLoopback := fun _ => false,
    ipPrivate := fun _ => false, hasNetwork := true,
    groupDebounce := fun _ l => l, expBackoff := fun _ _ _ => true,
    confSeed := true, chooseShuffle := fun _ => false, shuffle := fun _ l => l }

/-- The scheduler flags of the C4 counterexample: no suppression applies. -/
def schedC4 : SchedulerSt :=
  { hasSsbDb := false, ready := true, lastMessageAt := 0, isLoadingHops := false, st := stC4 }

/-- The pool state of the C3 witness: one dialable DB peer, nothing live. -/
def stC3 : St :=
  { dat := fun _ => {}, db := [1], staging := [], hub := [] }

/-- The environment of the C3 witness: identity debounce, backoff passes
everything. -/
def envC3 : Env :=
  { now := 0, hops := fun _ => none, ipLoopback := fun _ => false,
    ipPrivate := fun _ => false, hasNetwork := true,
    groupDebounce := fun _ l => l, expBackoff := fun _ _ _ => true,
    confSeed := true, chooseShuffle := fun _ => false, shuffle := fun _ l => l }

/-- The relation a tick step must respect for the block-purge argument: the
record snapshot is unchanged and staging only shrinks. -/
def TickRel (u v : St) : Prop :=
  v.dat = u.dat ∧ ∀ a ∈ v.staging, a ∈ u.staging

/-- The pool state of the C5 witness: a blocked staged peer (address 1) and
a blocked connected peer (address 2), both with key 5. -/
def stC5 : St :=
  { dat := fun a => if a = 1 ∨ a = 2 then { key := some 5 } else {},
    db := [], staging := [1], hub := [(2, HubSt.connected)] }

/-- The environment of the C5 witness: key 5 is blocked. -/
def envC5 : Env :=
  { now := 0, hops := fun k => if k = 5 then some (-1) else none,
    ipLoopback := fun _ => false, ipPrivate := fun _ => false, hasNetwork := true,
    groupDebounce := fun _ l => l, expBackoff := fun _ _ _ => true,
    confSeed := true, chooseShuffle := fun _ => false, shuffle := fun _ l => l }

/-- The pool state of the C6 witness: one LAN peer staged at time 0. -/
def stC6 : St :=
  { dat := fun a => if a = 1 then { ptype := some "lan", stagingUpdated := 0 } else {},
    db := [], staging := [1], hub := [] }

/-- The C6 witness environment at 9.9 s. -/
def envC6a : Env :=
  { now := 9900, hops := fun _ => none, ipLoopback := fun _ => false,
    ipPrivate := fun _ => false, hasNetwork := true,
    groupDebounce := fun _ l => l, expBackoff := fun _ _ _ => true,
    confSeed := true, chooseShuffle := fun _ => false, shuffle := fun _ l => l }

/-- The C6 witness environment at 10.1 s. -/
def envC6b : Env :=
  { now := 10100, hops := fun _ => none, ipLoopback := fun _ => false,
    ipPrivate := fun _ => false, hasNetwork := true,
    groupDebounce := fun _ l => l, expBackoff := fun _ _ _ => true,
    confSeed := true, chooseShuffle := fun _ => false, shuffle := fun _ l => l }

/-- C1: in every class pass, the free-slot count passed to candidate
selection is `max(quota − |up|, 0)` promoted from 1 to 2; the promotion
happens after the clamp (so the result is never 1 and never negative), and
the excess-disconnection count is computed without the promotion. -/
theorem C1_neverJustOne_free_slots (quota up : Nat) :
    ((freeSlotsOf quota up : Int) =
      if max ((quota : Int) - (up : Int)) 0 = 1 then 2
      else max ((quota : Int) - (up : Int)) 0) ∧
    freeSlotsOf quota up ≠ 1 ∧
    excessOf quota up = (if 2 * quota < up then up - quota else 0) := by
  unfold freeSlotsOf neverJustOne excessOf
  refine ⟨?_, ?_, ?_⟩ <;> split_ifs <;> omega

/-- C7: the public `stage` refuses whenever the hub holds a state for the
address — returning `false` with the pools untouched — and otherwise
delegates to the staging pool's insert, returning its boolean. -/
theorem C7_stage_refuses_live (env : Env) (a : Nat) (d : PeerData) (s : St) :
    ((hubStateOf s a).isSome = true → CONN.stage env a d s = (false, s)) ∧
    (hubStateOf s a = none → CONN.stage env a d s = Staging.stage env a d s) := by
  constructor <;> intro h <;> simp [CONN.stage, h]

/-- C7 witness: a concrete live address is refused. -/
theorem C7_stage_refuses_live_witness :
    (hubStateOf ⟨fun _ => {}, [], [], [(1, HubSt.connected)]⟩ 1).isSome = true ∧
    CONN.stage
      ⟨0, fun _ => none, fun _ => false, fun _ => false, true,
        fun _ l => l, fun _ _ _ => true, true, fun _ => false, fun _ l => l⟩
      1 {} ⟨fun _ => {}, [], [], [(1, HubSt.connected)]⟩ =
      (false, ⟨fun _ => {}, [], [], [(1, HubSt.connected)]⟩) :=
  ⟨by decide,
    (C7_stage_refuses_live _ 1 {} ⟨fun _ => {}, [], [], [(1, HubSt.connected)]⟩).1 (by decide)⟩

/-- C8: `updateNow` changes nothing when the message log exists but is not
ready, when a foreign log message arrived within the last 500 ms, or while
the hops table is loading; otherwise it runs `updateStagingNow` and then
`updateHubNow` on the pool state. -/
theorem C8_updateNow_suppression (env : Env) (c : SchedulerSt) :
    (c.hasSsbDb = true → c.ready = false → updateNow env c = c) ∧
    (c.lastMessageAt ≠ 0 → env.now - 500 < c.lastMessageAt → updateNow env c = c) ∧
    (c.isLoadingHops = true → updateNow env c = c) ∧
    ((c.hasSsbDb = true → c.ready = true) →
      (c.lastMessageAt ≠ 0 → c.lastMessageAt ≤ env.now - 500) →
      c.isLoadingHops = false →
      updateNow env c = { c with st := updateHubNow env (updateStagingNow env c.st) }) := by
  unfold updateNow isCurrentlyDownloading
  refine ⟨fun h1 h2 => ?_, fun h1 h2 => ?_, fun h1 => ?_, fun h1 h2 h3 => ?_⟩
  · simp [h1, h2]
  · have hd : (c.lastMessageAt != 0 && decide (env.now - 500 < c.lastMessageAt)) = true := by
      simp [h1, h2]
    simp only [hd, if_true]
    split <;> rfl
  · split
    · rfl
    · split
      · rfl
      · simp [h1]
  · have hb : (c.hasSsbDb && !c.ready) = false := by
      cases hdb : c.hasSsbDb
      · simp
      · simp [h1 hdb]
    have hd : (c.lastMessageAt != 0 && decide (env.now - 500 < c.lastMessageAt)) = false := by
      by_cases hz : c.lastMessageAt = 0
      · simp [hz]
      · simp [hz, Nat.not_lt.mpr (h2 hz)]
    simp [hb, hd, h3]

/-- C8 witness: a not-ready log suppresses the tick; with no suppression the
tick updates staging then hub. -/
theorem C8_updateNow_suppression_witness :
    ((true : Bool) = true ∧ (false : Bool) = false ∧
      updateNow
        ⟨1000, fun _ => none, fun _ => false, fun _ => false, true,
          fun _ l => l, fun _ _ _ => true, false, fun _ => false, fun _ l => l⟩
        ⟨true, false, 0, false, ⟨fun _ => {}, [], [], []⟩⟩ =
        ⟨true, false, 0, false, ⟨fun _ => {}, [], [], []⟩⟩) ∧
    updateNow
      ⟨1000, fun _ => none, fun _ => false, fun _ => false, true,
        fun _ l => l, fun _ _ _ => true, false, fun _ => false, fun _ l => l⟩
      ⟨false, true, 0, false, ⟨fun _ => {}, [], [], []⟩⟩ =
      { hasSsbDb := false, ready := true, lastMessageAt := 0, isLoadingHops := false,
        st := updateHubNow
          ⟨1000, fun _ => none, fun _ => false, fun _ => false, true,
            fun _ l => l, fun _ _ _ => true, false, fun _ => false, fun _ l => l⟩
          (updateStagingNow
            ⟨1000, fun _ => none, fun _ => false, fun _ => false, true,
              fun _ l => l, fun _ _ _ => true, false, fun _ => false, fun _ l => l⟩
            ⟨fun _ => {}, [], [], []⟩) } :=
  ⟨⟨rfl, rfl,
    (C8_updateNow_suppression _ ⟨true, false, 0, false, ⟨fun _ => {}, [], [], []⟩⟩).1 rfl rfl⟩,
    (C8_updateNow_suppression _ ⟨false, true, 0, false, ⟨fun _ => {}, [], [], []⟩⟩).2.2.2
      (by intro h; cases h) (by intro h; cases h rfl) rfl⟩

/-- C9 counterexample: with `timers.ping` configured as `0` the code uses
the 5-minute default (JavaScript `||` treats `0` as absent), not the
claimed clamp of the configured value into `[10 s, 30 min]`. -/
theorem C9_counterexample :
    ¬ CONN.pingTimeout (some 0) = max 10000 (min 0 (30 * 60000)) := by decide

/-- C9 amended: the ping timeout is the configured `timers.ping` clamped
into `[10 s, 30 min]` whenever a nonzero value is configured, and is the
5-minute default when `timers.ping` is absent or `0` (falsy). -/
theorem C9_ping_clamped (t : Int) :
    (t ≠ 0 → CONN.pingTimeout (some t) = max 10000 (min t (30 * 60000))) ∧
    CONN.pingTimeout none = 5 * 60000 ∧
    CONN.pingTimeout (some 0) = 5 * 60000 := by
  refine ⟨fun h => ?_, by decide, by decide⟩
  unfold CONN.pingTimeout
  simp [h]

/-- C9 witness: a configured 20-second ping timeout is clamped (to itself). -/
theorem C9_ping_clamped_witness :
    (20000 : Int) ≠ 0 ∧
    CONN.pingTimeout (some 20000) = max 10000 (min 20000 (30 * 60000)) :=
  ⟨by decide, (C9_ping_clamped 20000).1 (by decide)⟩

/-- C10: when the validated key of the address equals the local identity,
the legacy `gossip.add` returns `undefined` without touching the address
book and without emitting a `'discover'` notification, whatever the given
source. -/
theorem C10_add_self_is_noop (env : GossipEnv) (g : GossipSt) (addr : GAddr)
    (source : Option String) (as : String) (parsed : GPeer)
    (hv : validateAddr env addr = some (as, parsed))
    (hk : parsed.key = some env.selfId) :
    Gossip.add env g addr source = (g, AddRet.retNone) := by
  unfold Gossip.add
  rw [hv]
  simp [hk]

/-- C10 witness: adding our own identity (key `@me.ed25519`) with source
`pub` leaves the book and the notification stream unchanged. -/
theorem C10_add_self_is_noop_witness :
    validateAddr ⟨"@me.ed25519", fun _ => true, fun _ => none, fun _ => true, fun _ => none⟩
        (GAddr.obj { key := some "@me.ed25519", address := some "net:me" }) =
      some ("net:me", { key := some "@me.ed25519", address := some "net:me" }) ∧
    (GPeer.key { key := some "@me.ed25519", address := some "net:me" } = some "@me.ed25519") ∧
    Gossip.add ⟨"@me.ed25519", fun _ => true, fun _ => none, fun _ => true, fun _ => none⟩
        ⟨[], []⟩ (GAddr.obj { key := some "@me.ed25519", address := some "net:me" }) (some "pub") =
      (⟨[], []⟩, AddRet.retNone) :=
  ⟨by decide, by decide,
    C10_add_self_is_noop _ ⟨[], []⟩ _ (some "pub") "net:me"
      { key := some "@me.ed25519", address := some "net:me" } (by decide) (by decide)⟩

/-- An address has no hub state exactly when it is absent from the hub
registry. -/
theorem hubStateOf_eq_none_iff (s : St) (a : Nat) :
    hubStateOf s a = none ↔ a ∉ s.hub.map Prod.fst := by
  unfold hubStateOf
  rw [Option.map_eq_none', List.find?_eq_none]
  constructor
  · intro h hmem
    obtain ⟨e, he, hfe⟩ := List.mem_map.mp hmem
    exact absurd (by simpa using hfe.symm ▸ rfl : (e.1 == a) = true) (by simpa using h e he)
  · intro h e he
    intro hbeq
    exact h (List.mem_map.mpr ⟨e, he, by simpa using hbeq⟩)

/-- A fold of disconnects only rewrites the hub, by repeated filtering. -/
theorem discFold_eq (L : List Peer) (t : St) :
    L.foldl (fun u p => Hub.disconnect p.1 u) t
      = { t with hub := L.foldl (fun h p => h.filter (fun e => e.1 != p.1)) t.hub } := by
  induction L generalizing t with
  | nil => rfl
  | cons p rest ih => exact ih (Hub.disconnect p.1 t)

/-- A fold of unstages only rewrites the staging pool, by repeated
filtering. -/
theorem unstageFold_eq (L : List Peer) (t : St) :
    L.foldl (fun u p => Staging.unstage p.1 u) t
      = { t with staging := L.foldl (fun st p => st.filter (fun x => x != p.1)) t.staging } := by
  induction L generalizing t with
  | nil => rfl
  | cons p rest ih => exact ih (Staging.unstage p.1 t)

/-- Membership after repeatedly deleting the addresses of `L` from a hub
list. -/
theorem mem_filterFold_hub (L : List Peer) (h : List (Nat × HubSt)) (e : Nat × HubSt) :
    e ∈ L.foldl (fun h p => h.filter (fun e => e.1 != p.1)) h ↔
      e ∈ h ∧ ∀ p ∈ L, e.1 ≠ p.1 := by
  induction L generalizing h with
  | nil => simp
  | cons p rest ih =>
    simp only [List.foldl_cons, ih, List.mem_filter, bne_iff_ne, ne_eq, List.mem_cons]
    constructor
    · rintro ⟨⟨he, hne⟩, hrest⟩
      exact ⟨he, fun q hq => hq.elim (fun h' => h' ▸ hne) (hrest q)⟩
    · rintro ⟨he, hall⟩
      exact ⟨⟨he, hall p (Or.inl rfl)⟩, fun q hq => hall q (Or.inr hq)⟩

/-- Membership after repeatedly deleting the addresses of `L` from a
staging list. -/
theorem mem_filterFold_staging (L : List Peer) (st : List Nat) (a : Nat) :
    a ∈ L.foldl (fun st p => st.filter (fun x => x != p.1)) st ↔
      a ∈ st ∧ ∀ p ∈ L, a ≠ p.1 := by
  induction L generalizing st with
  | nil => simp
  | cons p rest ih =>
    simp only [List.foldl_cons, ih, List.mem_filter, bne_iff_ne, ne_eq, List.mem_cons]
    constructor
    · rintro ⟨⟨he, hne⟩, hrest⟩
      exact ⟨he, fun q hq => hq.elim (fun h' => h' ▸ hne) (hrest q)⟩
    · rintro ⟨he, hall⟩
      exact ⟨⟨he, hall p (Or.inl rfl)⟩, fun q hq => hall q (Or.inr hq)⟩

/-- The hub filter fold yields a sublist of the original hub. -/
theorem filterFold_hub_sublist (L : List Peer) (h : List (Nat × HubSt)) :
    List.Sublist (L.foldl (fun h p => h.filter (fun e => e.1 != p.1)) h) h := by
  induction L generalizing h with
  | nil => exact List.Sublist.refl h
  | cons p rest ih =>
    exact (ih (h.filter (fun e => e.1 != p.1))).trans (List.filter_sublist h)

/-- A fold of connects leaves the record snapshot and the DB untouched. -/
theorem connFold_dat_db (L : List Peer) (t : St) :
    (L.foldl (fun u p => Hub.connect p.1 u) t).dat = t.dat ∧
    (L.foldl (fun u p => Hub.connect p.1 u) t).db = t.db := by
  induction L generalizing t with
  | nil => exact ⟨rfl, rfl⟩
  | cons p rest ih =>
    have h := ih (Hub.connect p.1 t)
    have hc : (Hub.connect p.1 t).dat = t.dat ∧ (Hub.connect p.1 t).db = t.db := by
      unfold Hub.connect; split <;> exact ⟨rfl, rfl⟩
    exact ⟨h.1.trans hc.1, h.2.trans hc.2⟩

/-- A fold of connects only removes staged addresses. -/
theorem connFold_staging_subset (L : List Peer) (t : St) :
    ∀ a ∈ (L.foldl (fun u p => Hub.connect p.1 u) t).staging, a ∈ t.staging := by
  induction L generalizing t with
  | nil => exact fun a ha => ha
  | cons p rest ih =>
    intro a ha
    have := ih (Hub.connect p.1 t) a ha
    revert this
    unfold Hub.connect; split
    · exact id
    · intro h
      exact (List.mem_filter.mp h).1

/-- A fold of connects can only raise the count of matching hub entries by
the number of dialed peers. -/
theorem connFold_countP_le (Q : Nat → Bool) (L : List Peer) (t : St) :
    ((L.foldl (fun u p => Hub.connect p.1 u) t).hub).countP (fun e => Q e.1)
      ≤ t.hub.countP (fun e => Q e.1) + L.length := by
  induction L generalizing t with
  | nil => simp
  | cons p rest ih =>
    have h := ih (Hub.connect p.1 t)
    have hc : (Hub.connect p.1 t).hub.countP (fun e => Q e.1)
        ≤ t.hub.countP (fun e => Q e.1) + 1 := by
      unfold Hub.connect; split
      · omega
      · simp only [List.countP_append, List.countP_cons, List.countP_nil]
        split <;> omega
    simp only [List.foldl_cons, List.length_cons]
    omega

/-- Dialing a list of fresh, pairwise-distinct addresses appends exactly
those entries, in order, as `connecting`. -/
theorem connFold_hub_append (L : List Peer) (t : St)
    (hnd : (L.map Prod.fst).Nodup)
    (hnotin : ∀ p ∈ L, p.1 ∉ t.hub.map Prod.fst) :
    (L.foldl (fun u p => Hub.connect p.1 u) t).hub
      = t.hub ++ L.map (fun p => (p.1, HubSt.connecting)) := by
  induction L generalizing t with
  | nil => simp
  | cons p rest ih =>
    have hstate : hubStateOf t p.1 = none :=
      (hubStateOf_eq_none_iff t p.1).mpr (hnotin p (List.mem_cons_self p rest))
    have hconn : Hub.connect p.1 t
        = { t with hub := t.hub ++ [(p.1, HubSt.connecting)],
                   staging := t.staging.filter (fun x => x != p.1) } := by
      unfold Hub.connect
      rw [if_neg (by simp [hstate])]
    simp only [List.foldl_cons, hconn]
    rw [ih _ (by simpa using hnd.of_cons)]
    · simp
    · intro q hq
      simp only [List.map_append, List.mem_append, List.map_cons]
      rintro (h | h)
      · exact hnotin q (List.mem_cons_of_mem p hq) h
      · have : q.1 = p.1 := by simpa using h
        have hne : q.1 ≠ p.1 := by
          have := List.nodup_cons.mp hnd
          exact fun hEq => this.1 (hEq ▸ List.mem_map_of_mem Prod.fst hq)
        exact hne this

/-- C2: in a class pass with `|up| > 2·quota`, exactly `|up| − quota` peers
are selected for disconnection, all of them drawn from `up`, and each of
them has a `stateChange` no larger than any peer that is kept; with
`|up| ≤ 2·quota` the excess-disconnect list is empty. -/
theorem C2_excess_disconnects (quota : Nat) (peersUp : List Peer) :
    (2 * quota < peersUp.length →
      (disconnectsOf quota peersUp).length = peersUp.length - quota ∧
      (∀ p ∈ disconnectsOf quota peersUp, p ∈ peersUp) ∧
      (∀ p ∈ disconnectsOf quota peersUp,
        ∀ q ∈ (sortByStateChange peersUp).drop (peersUp.length - quota),
          p.2.stateChange ≤ q.2.stateChange)) ∧
    (peersUp.length ≤ 2 * quota → disconnectsOf quota peersUp = []) := by
  have hlen : (sortByStateChange peersUp).length = peersUp.length :=
    List.length_insertionSort _ _
  constructor
  · intro hgt
    have hex : excessOf quota peersUp.length = peersUp.length - quota := by
      unfold excessOf; rw [if_pos (by omega)]
    refine ⟨?_, ?_, ?_⟩
    · unfold disconnectsOf takeN
      rw [hex, List.length_take, hlen]
      omega
    · intro p hp
      unfold disconnectsOf takeN at hp
      have hmem := List.mem_of_mem_take hp
      exact (List.mem_insertionSort leSC).mp hmem
    · intro p hp q hq
      unfold disconnectsOf takeN at hp
      rw [hex] at hp
      have hsorted : List.Pairwise leSC (sortByStateChange peersUp) :=
        List.sorted_insertionSort leSC peersUp
      rw [← List.take_append_drop (peersUp.length - quota) (sortByStateChange peersUp)]
        at hsorted
      exact (List.pairwise_append.mp hsorted).2.2 p hp q hq
  · intro hle
    unfold disconnectsOf takeN excessOf
    rw [if_neg (by omega)]
    simp

/-- C2 witness: with quota 1 and three connected class peers the two oldest
are selected. -/
theorem C2_excess_disconnects_witness :
    2 * 1 < ([(1, ({stateChange := 5} : PeerData)), (2, {stateChange := 3}),
              (3, {stateChange := 4})] : List Peer).length ∧
    (disconnectsOf 1 [(1, ({stateChange := 5} : PeerData)), (2, {stateChange := 3}),
      (3, {stateChange := 4})]).length =
      ([(1, ({stateChange := 5} : PeerData)), (2, {stateChange := 3}),
        (3, {stateChange := 4})] : List Peer).length - 1 :=
  ⟨by decide,
    ((C2_excess_disconnects 1 [(1, {stateChange := 5}), (2, {stateChange := 3}),
      (3, {stateChange := 4})]).1 (by decide)).1⟩

/-- Removing the unique hub entry of a matching address lowers the matching
count by exactly one. -/
theorem countP_filter_out_addr (Q : Nat → Bool) (h : List (Nat × HubSt)) (a : Nat)
    (hnd : (h.map Prod.fst).Nodup) (ha : a ∈ h.map Prod.fst) (hQ : Q a = true) :
    (h.filter (fun e => e.1 != a)).countP (fun e => Q e.1) + 1
      = h.countP (fun e => Q e.1) := by
  induction h with
  | nil => simp at ha
  | cons e t ih =>
    rw [List.map_cons, List.nodup_cons] at hnd
    by_cases hea : e.1 = a
    · have hta : a ∉ t.map Prod.fst := hea ▸ hnd.1
      have hfe : t.filter (fun x => x.1 != a) = t := by
        apply List.filter_eq_self.mpr
        intro x hx
        simp only [bne_iff_ne, ne_eq, decide_eq_true_eq]
        exact fun hxa => hta (hxa ▸ List.mem_map_of_mem Prod.fst hx)
      simp [List.filter_cons, hea, hfe, List.countP_cons, hQ]
    · have ha' : a ∈ t.map Prod.fst := by
        rw [List.map_cons] at ha
        rcases List.mem_cons.mp ha with h' | h'
        · exact absurd h'.symm hea
        · exact h'
      have := ih hnd.2 ha'
      simp only [List.filter_cons, List.countP_cons]
      rw [if_pos (by simp [hea])]
      simp only [List.countP_cons]
      omega

/-- Repeatedly deleting pairwise-distinct matching addresses that are all
present lowers the matching count by exactly the number of deletions. -/
theorem filterFold_countP (Q : Nat → Bool) (L : List Peer) (h : List (Nat × HubSt))
    (hnd : (h.map Prod.fst).Nodup) (hLnd : (L.map Prod.fst).Nodup)
    (hmem : ∀ p ∈ L, p.1 ∈ h.map Prod.fst) (hQ : ∀ p ∈ L, Q p.1 = true) :
    (L.foldl (fun h p => h.filter (fun e => e.1 != p.1)) h).countP (fun e => Q e.1)
      + L.length = h.countP (fun e => Q e.1) := by
  induction L generalizing h with
  | nil => simp
  | cons p rest ih =>
    rw [List.map_cons, List.nodup_cons] at hLnd
    have hstep := countP_filter_out_addr Q h p.1 hnd
      (hmem p (List.mem_cons_self p rest)) (hQ p (List.mem_cons_self p rest))
    have hnd' : ((h.filter (fun e => e.1 != p.1)).map Prod.fst).Nodup :=
      hnd.sublist (List.Sublist.map Prod.fst (List.filter_sublist h))
    have hmem' : ∀ q ∈ rest, q.1 ∈ (h.filter (fun e => e.1 != p.1)).map Prod.fst := by
      intro q hq
      obtain ⟨e, he, hfe⟩ := List.mem_map.mp (hmem q (List.mem_cons_of_mem p hq))
      refine List.mem_map.mpr ⟨e, List.mem_filter.mpr ⟨he, ?_⟩, hfe⟩
      simp only [bne_iff_ne, ne_eq, decide_eq_true_eq, hfe]
      exact fun hqp => hLnd.1 (hqp ▸ List.mem_map_of_mem Prod.fst hq)
    have := ih (h.filter (fun e => e.1 != p.1)) hnd' hLnd.2 hmem'
      (fun q hq => hQ q (List.mem_cons_of_mem p hq))
    simp only [List.foldl_cons, List.length_cons]
    omega

/-- Counting in-connection peers that match a class predicate is counting
matching hub entries. -/
theorem countInConnection (t : St) (test : Peer → Bool) :
    ((peersInConnection t).filter test).length
      = t.hub.countP (fun e => test (e.1, t.dat e.1)) := by
  unfold peersInConnection
  rw [← List.countP_eq_length_filter, List.countP_map]
  rfl

/-- A class pass never changes the record snapshot. -/
theorem updateThese_dat (env : Env) (rnd : Bool) (shuf : List Peer → List Peer)
    (test : Peer → Bool) (opts : UpdateOpts) (s : St) :
    (updateTheseConnections env rnd shuf test opts s).dat = s.dat := by
  unfold updateTheseConnections
  rw [(connFold_dat_db _ _).1, discFold_eq]

/-- A class pass never changes the address book. -/
theorem updateThese_db (env : Env) (rnd : Bool) (shuf : List Peer → List Peer)
    (test : Peer → Bool) (opts : UpdateOpts) (s : St) :
    (updateTheseConnections env rnd shuf test opts s).db = s.db := by
  unfold updateTheseConnections
  rw [(connFold_dat_db _ _).2, discFold_eq]

/-- A class pass only removes staged addresses (dials unstage). -/
theorem updateThese_staging_subset (env : Env) (rnd : Bool) (shuf : List Peer → List Peer)
    (test : Peer → Bool) (opts : UpdateOpts) (s : St) :
    ∀ a ∈ (updateTheseConnections env rnd shuf test opts s).staging, a ∈ s.staging := by
  unfold updateTheseConnections
  intro a ha
  have h := connFold_staging_subset _ _ a ha
  rw [discFold_eq] at h
  exact h

/-- C4 counterexample: after one complete, unsuppressed tick the seed class
(quota 3) holds eight in-connection peers — more than `2·quota = 6`.  The
six existing seed connections are not excess (6 ≤ 2·3), and the later
`hasPinged` pass dials two further seed peers, so the claimed per-class
bound does not survive the whole tick. -/
theorem C4_counterexample :
    2 * 3 < ((peersInConnection (updateNow envC4 schedC4).st).filter isSeedPeer).length := by
  decide

/-- C4 amended: the quota bound holds for each class immediately after that
class's own pass: right after `updateTheseConnections` with predicate
`test` and quota `q`, at most `2·q` in-connection peers match `test`
(later passes and the staged-peer promotion may add more matching
connections, as the counterexample shows). -/
theorem C4_amended_bound_after_class_pass (env : Env) (rnd : Bool)
    (shuf : List Peer → List Peer) (test : Peer → Bool) (opts : UpdateOpts) (s : St)
    (hnd : (s.hub.map Prod.fst).Nodup) :
    ((peersInConnection (updateTheseConnections env rnd shuf test opts s)).filter test).length
      ≤ 2 * opts.quota := by
  set n := ((peersInConnection s).filter test).length with hn
  set D := disconnectsOf opts.quota ((peersInConnection s).filter test) with hDdef
  have hupfst : (((peersInConnection s).filter test).map Prod.fst).Nodup := by
    have h1 : List.Sublist ((peersInConnection s).filter test) (peersInConnection s) :=
      List.filter_sublist _
    have h2 := List.Sublist.map Prod.fst h1
    have h3 : (peersInConnection s).map Prod.fst = s.hub.map Prod.fst := by
      unfold peersInConnection; rw [List.map_map]; rfl
    rw [h3] at h2
    exact hnd.sublist h2
  have hperm : List.Perm (sortByStateChange ((peersInConnection s).filter test))
      ((peersInConnection s).filter test) := List.perm_insertionSort _ _
  have hDsub : List.Sublist D (sortByStateChange ((peersInConnection s).filter test)) := by
    rw [hDdef]; unfold disconnectsOf takeN; exact List.take_sublist _ _
  have hDfst : (D.map Prod.fst).Nodup := by
    have hsortnd : ((sortByStateChange ((peersInConnection s).filter test)).map Prod.fst).Nodup :=
      ((hperm.map Prod.fst).nodup_iff).mpr hupfst
    exact hsortnd.sublist (List.Sublist.map Prod.fst hDsub)
  have hDup : ∀ p ∈ D, p.1 ∈ s.hub.map Prod.fst ∧ test (p.1, s.dat p.1) = true := by
    intro p hp
    have hpin : p ∈ (peersInConnection s).filter test :=
      hperm.mem_iff.mp (hDsub.mem hp)
    have hpc := List.mem_filter.mp hpin
    obtain ⟨e, he, hfe⟩ := List.mem_map.mp hpc.1
    cases hfe
    exact ⟨List.mem_map_of_mem Prod.fst he, hpc.2⟩
  have hcount1 := filterFold_countP (fun a => test (a, s.dat a)) D s.hub hnd hDfst
    (fun p hp => (hDup p hp).1) (fun p hp => (hDup p hp).2)
  have hDlen : D.length = excessOf opts.quota n := by
    rw [hDdef]; unfold disconnectsOf takeN sortByStateChange
    rw [List.length_take, List.length_insertionSort]
    unfold excessOf; split <;> omega
  have hupdate : updateTheseConnections env rnd shuf test opts s
      = (dialsOf env rnd shuf opts test s).foldl (fun t p => Hub.connect p.1 t)
          (D.foldl (fun t p => Hub.disconnect p.1 t) s) := rfl
  have hconn := connFold_countP_le (fun a => test (a, s.dat a))
    (dialsOf env rnd shuf opts test s) (D.foldl (fun t p => Hub.disconnect p.1 t) s)
  rw [discFold_eq] at hconn
  have hdialslen : (dialsOf env rnd shuf opts test s).length ≤ freeSlotsOf opts.quota n := by
    unfold dialsOf takeN
    exact List.length_take_le _ _
  have hbridge : ((peersInConnection (updateTheseConnections env rnd shuf test opts s)).filter
      test).length = (updateTheseConnections env rnd shuf test opts s).hub.countP
        (fun e => test (e.1, s.dat e.1)) := by
    rw [countInConnection, updateThese_dat]
  rw [hbridge, hupdate, discFold_eq]
  have hntop : s.hub.countP (fun e => test (e.1, s.dat e.1)) = n := by
    rw [hn]; exact (countInConnection s test).symm
  unfold excessOf at hDlen
  unfold freeSlotsOf neverJustOne at hdialslen
  simp only at hconn hcount1 ⊢
  split_ifs at hDlen hdialslen <;> omega

/-- C4 amended witness: the seed pass itself keeps the seed class within
`2·quota` on the counterexample state. -/
theorem C4_amended_bound_after_class_pass_witness :
    (stC4.hub.map Prod.fst).Nodup ∧
    ((peersInConnection (updateTheseConnections envC4 false (fun l => l) isSeedPeer
        ⟨3, 2000, 600000, 1000⟩ stC4)).filter isSeedPeer).length ≤ 2 * 3 :=
  ⟨by decide,
    C4_amended_bound_after_class_pass envC4 false (fun l => l) isSeedPeer
      ⟨3, 2000, 600000, 1000⟩ stC4 (by decide)⟩

/-- C3: in a class pass, the peers that get dialed are exactly the first
free-slots many of the ordered candidate pipeline — connectable DB peers
matching the class predicate, minus blocked, offline and
`autoconnect=false` peers, group-debounced then backoff-filtered, then
shuffled or sorted by `stateChange` (see `candidatesOf`, `orderedCandidatesOf`
and `dialsOf`): each of them is appended to the hub as `connecting`, and
nothing else is dialed.  The group-debounce combinator is assumed to return
a subsequence of its input, and the shuffle a permutation. -/
theorem C3_dials_are_pipeline (env : Env) (rnd : Bool) (shuf : List Peer → List Peer)
    (test : Peer → Bool) (opts : UpdateOpts) (s : St)
    (hdb : s.db.Nodup)
    (hgd : ∀ gm l, List.Sublist (env.groupDebounce gm l) l)
    (hsh : ∀ l, List.Perm (shuf l) l) :
    (updateTheseConnections env rnd shuf test opts s).hub =
      ((disconnectsOf opts.quota ((peersInConnection s).filter test)).foldl
          (fun t p => Hub.disconnect p.1 t) s).hub
        ++ (dialsOf env rnd shuf opts test s).map (fun p => (p.1, HubSt.connecting)) := by
  have hc1 : List.Sublist (candidatesOf env opts test s) (peersConnectableDb s) := by
    unfold candidatesOf
    refine (List.filter_sublist _).trans ((hgd _ _).trans ?_)
    exact (List.filter_sublist _).trans ((List.filter_sublist _).trans
      ((List.filter_sublist _).trans (List.filter_sublist _)))
  have hpdbfst : (peersConnectableDb s).map Prod.fst
      = s.db.filter (fun a => (hubStateOf s a).isNone) := by
    unfold peersConnectableDb
    rw [List.map_map]
    exact List.map_id _
  have hpdbnd : ((peersConnectableDb s).map Prod.fst).Nodup := by
    rw [hpdbfst]; exact hdb.filter _
  have hord : List.Perm (orderedCandidatesOf env rnd shuf opts test s)
      (candidatesOf env opts test s) := by
    unfold orderedCandidatesOf
    split
    · exact hsh _
    · exact List.perm_insertionSort _ _
  have hdialssub : List.Sublist (dialsOf env rnd shuf opts test s)
      (orderedCandidatesOf env rnd shuf opts test s) := by
    unfold dialsOf takeN; exact List.take_sublist _ _
  have hdialsnd : ((dialsOf env rnd shuf opts test s).map Prod.fst).Nodup := by
    have hcnd : ((candidatesOf env opts test s).map Prod.fst).Nodup :=
      hpdbnd.sublist (List.Sublist.map Prod.fst hc1)
    have hondnd : ((orderedCandidatesOf env rnd shuf opts test s).map Prod.fst).Nodup :=
      ((hord.map Prod.fst).nodup_iff).mpr hcnd
    exact hondnd.sublist (List.Sublist.map Prod.fst hdialssub)
  have hnotin : ∀ p ∈ dialsOf env rnd shuf opts test s,
      p.1 ∉ ((disconnectsOf opts.quota ((peersInConnection s).filter test)).foldl
        (fun t p => Hub.disconnect p.1 t) s).hub.map Prod.fst := by
    intro p hp
    have hpc : p ∈ candidatesOf env opts test s := hord.mem_iff.mp (hdialssub.mem hp)
    have hpd : p ∈ peersConnectableDb s := hc1.mem hpc
    obtain ⟨a, ha, hfe⟩ := List.mem_map.mp hpd
    have hnone : hubStateOf s a = none := by
      have := (List.mem_filter.mp ha).2
      simpa [Option.isNone_iff_eq_none] using this
    have hnotins : a ∉ s.hub.map Prod.fst := (hubStateOf_eq_none_iff s a).mp hnone
    have hsub : List.Sublist (((disconnectsOf opts.quota ((peersInConnection s).filter
        test)).foldl (fun t p => Hub.disconnect p.1 t) s).hub) s.hub := by
      rw [discFold_eq]
      exact filterFold_hub_sublist _ _
    intro hmem
    cases hfe
    exact hnotins ((List.Sublist.map Prod.fst hsub).mem hmem)
  exact connFold_hub_append _ _ hdialsnd hnotin

/-- C3 witness: the any-peer class pass on the witness state dials exactly
the pipeline's selection. -/
theorem C3_dials_are_pipeline_witness :
    stC3.db.Nodup ∧
    (updateTheseConnections envC3 false (fun l => l) (fun _ => true)
        ⟨1, 1000, 6000, 0⟩ stC3).hub =
      ((disconnectsOf 1 ((peersInConnection stC3).filter (fun _ => true))).foldl
          (fun t p => Hub.disconnect p.1 t) stC3).hub
        ++ (dialsOf envC3 false (fun l => l) ⟨1, 1000, 6000, 0⟩ (fun _ => true) stC3).map
            (fun p => (p.1, HubSt.connecting)) :=
  ⟨by decide,
    C3_dials_are_pipeline envC3 false (fun l => l) (fun _ => true) ⟨1, 1000, 6000, 0⟩ stC3
      (by decide) (fun _ l => List.Sublist.refl l) (fun l => List.Perm.refl l)⟩

/-- The predicate `weBlockThem` only reads the record's key. -/
theorem weBlockThem_congr_key (env : Env) (a : Nat) (d d' : PeerData)
    (h : d.key = d'.key) :
    weBlockThem env (a, d) = weBlockThem env (a, d') := by
  unfold weBlockThem
  rw [h]

/-- The lookup `hubStateOf` only reads the hub. -/
theorem hubStateOf_congr (t t' : St) (h : t.hub = t'.hub) (a : Nat) :
    hubStateOf t a = hubStateOf t' a := by
  unfold hubStateOf
  rw [h]

/-- A staged address outside the hub is a connectable staging peer. -/
theorem mem_peersConnectableStaging (t : St) (a : Nat)
    (ha : a ∈ t.staging) (hnot : a ∉ t.hub.map Prod.fst) :
    (a, t.dat a) ∈ peersConnectableStaging t := by
  unfold peersConnectableStaging
  exact List.mem_map_of_mem _
    (List.mem_filter.mpr ⟨ha, by simp [(hubStateOf_eq_none_iff t a).mpr hnot]⟩)

/-- Every hub entry appears among the in-connection peers. -/
theorem mem_peersInConnection (t : St) (e : Nat × HubSt) (he : e ∈ t.hub) :
    (e.1, t.dat e.1) ∈ peersInConnection t :=
  List.mem_map_of_mem _ he

/-- Effects of a fold of `CONN.stage` inserts whose payloads carry the keys
already recorded for their addresses: hub and DB untouched, record keys
unchanged, staging only grows, and every new staged address was absent from
the hub. -/
theorem stageFold_props (env : Env) (L : List Peer) (t : St)
    (hL : ∀ p ∈ L, p.2.key = (t.dat p.1).key) :
    (L.foldl (fun u p => (CONN.stage env p.1 p.2 u).2) t).hub = t.hub ∧
    (L.foldl (fun u p => (CONN.stage env p.1 p.2 u).2) t).db = t.db ∧
    (∀ x, ((L.foldl (fun u p => (CONN.stage env p.1 p.2 u).2) t).dat x).key = (t.dat x).key) ∧
    (∀ a ∈ t.staging, a ∈ (L.foldl (fun u p => (CONN.stage env p.1 p.2 u).2) t).staging) ∧
    (∀ a ∈ (L.foldl (fun u p => (CONN.stage env p.1 p.2 u).2) t).staging,
      a ∈ t.staging ∨ hubStateOf t a = none) ∧
    (∀ a ∈ t.staging, (L.foldl (fun u p => (CONN.stage env p.1 p.2 u).2) t).dat a = t.dat a) := by
  induction L generalizing t with
  | nil => exact ⟨rfl, rfl, fun _ => rfl, fun _ h => h, fun _ h => Or.inl h, fun _ _ => rfl⟩
  | cons p rest ih =>
    have hLrest : ∀ q ∈ rest, q.2.key = (t.dat q.1).key :=
      fun q hq => hL q (List.mem_cons_of_mem p hq)
    by_cases hsome : (hubStateOf t p.1).isSome
    · have hstep : (CONN.stage env p.1 p.2 t).2 = t := by
        unfold CONN.stage; rw [if_pos hsome]
      simpa [hstep] using ih t hLrest
    · by_cases hmem : p.1 ∈ t.staging
      · have hstep : (CONN.stage env p.1 p.2 t).2 = t := by
          unfold CONN.stage Staging.stage
          rw [if_neg hsome, if_pos hmem]
        simpa [hstep] using ih t hLrest
      · have hkey_p : p.2.key = (t.dat p.1).key := hL p (List.mem_cons_self p rest)
        have hstep : (CONN.stage env p.1 p.2 t).2 =
            { t with
              staging := t.staging ++ [p.1],
              dat := fun x => if x = p.1
                then { p.2 with stagingUpdated := env.now } else t.dat x } := by
          unfold CONN.stage Staging.stage
          rw [if_neg hsome, if_neg hmem]
        have hukey : ∀ x, ((fun x => if x = p.1
            then { p.2 with stagingUpdated := env.now } else t.dat x) x).key
              = (t.dat x).key := by
          intro x
          by_cases hx : x = p.1
          · simp only [if_pos hx, hx]
            exact hkey_p
          · simp only [if_neg hx]
        obtain ⟨h1, h2, h3, h4, h5, h6⟩ := ih
          { t with
            staging := t.staging ++ [p.1],
            dat := fun x => if x = p.1
              then { p.2 with stagingUpdated := env.now } else t.dat x }
          (by
            intro q hq
            exact (hukey q.1).symm ▸ hLrest q hq)
        simp only [List.foldl_cons, hstep]
        refine ⟨h1, h2, ?_, ?_, ?_, ?_⟩
        · intro x
          rw [h3 x]
          exact hukey x
        · intro a ha
          exact h4 a (List.mem_append.mpr (Or.inl ha))
        · intro a ha
          rcases h5 a ha with h | h
          · rcases List.mem_append.mp h with h' | h'
            · exact Or.inl h'
            · have ha' : a = p.1 := by simpa using h'
              subst ha'
              exact Or.inr (Option.not_isSome_iff_eq_none.mp hsome)
          · exact Or.inr h
        · intro a ha
          have hne : a ≠ p.1 := fun hEq => hmem (hEq ▸ ha)
          have h7 := h6 a (List.mem_append.mpr (Or.inl ha))
          rw [h7]
          simp only [if_neg hne]

theorem TickRel.rfl (u : St) : TickRel u u :=
  ⟨Eq.refl _, fun _ h => h⟩

theorem TickRel.trans {u v w : St} (h1 : TickRel u v) (h2 : TickRel v w) : TickRel u w :=
  ⟨h2.1.trans h1.1, fun a ha => h1.2 a (h2.2 a ha)⟩

/-- Every class pass respects `TickRel`. -/
theorem TickRel.pass (env : Env) (rnd : Bool) (shuf : List Peer → List Peer)
    (test : Peer → Bool) (opts : UpdateOpts) (u : St) :
    TickRel u (updateTheseConnections env rnd shuf test opts u) :=
  ⟨updateThese_dat env rnd shuf test opts u, updateThese_staging_subset env rnd shuf test opts u⟩

theorem tickRel_hubPass0 (env : Env) (u : St) : TickRel u (hubPass0 env u) := by
  unfold hubPass0; split
  · exact TickRel.pass env _ _ _ _ u
  · exact TickRel.rfl u

theorem tickRel_hubPass1 (env : Env) (u : St) : TickRel u (hubPass1 env u) := by
  unfold hubPass1; split
  · exact TickRel.pass env _ _ _ _ u
  · exact TickRel.rfl u

theorem tickRel_hubPasses (env : Env) (u : St) : TickRel u (hubPasses env u) := by
  unfold hubPasses hubPass2 hubPass3 hubPass4 hubPass5 hubPass6
  exact (tickRel_hubPass0 env u).trans ((tickRel_hubPass1 env _).trans
    ((TickRel.pass env _ _ _ _ _).trans ((TickRel.pass env _ _ _ _ _).trans
      ((TickRel.pass env _ _ _ _ _).trans ((TickRel.pass env _ _ _ _ _).trans
        (TickRel.pass env _ _ _ _ _))))))

/-- Effects of the staged-follow connects. -/
theorem stagedFollowStep_eff (env : Env) (t : St) :
    (stagedFollowStep env t).dat = t.dat ∧
    (stagedFollowStep env t).db = t.db ∧
    (∀ a ∈ (stagedFollowStep env t).staging, a ∈ t.staging) := by
  unfold stagedFollowStep
  exact ⟨(connFold_dat_db _ _).1, (connFold_dat_db _ _).2, connFold_staging_subset _ _⟩

/-- Effects of the block purge on the hub: everything but the hub is
untouched. -/
theorem blockedDisconnectStep_eff (env : Env) (t : St) :
    (blockedDisconnectStep env t).dat = t.dat ∧
    (blockedDisconnectStep env t).db = t.db ∧
    (blockedDisconnectStep env t).staging = t.staging := by
  unfold blockedDisconnectStep
  rw [discFold_eq]
  exact ⟨Eq.refl _, Eq.refl _, Eq.refl _⟩

/-- After the block purge no in-connection peer is blocked. -/
theorem blockedDisconnect_clean (env : Env) (t : St) :
    ∀ e ∈ (blockedDisconnectStep env t).hub, weBlockThem env (e.1, t.dat e.1) = false := by
  intro e he
  unfold blockedDisconnectStep at he
  rw [discFold_eq] at he
  have hmem := (mem_filterFold_hub _ _ _).mp he
  by_contra hblk
  have hblk' : weBlockThem env (e.1, t.dat e.1) = true := by
    cases h : weBlockThem env (e.1, t.dat e.1)
    · exact absurd h hblk
    · rfl
  have hin : (e.1, t.dat e.1) ∈ (peersInConnection t).filter (weBlockThem env) :=
    List.mem_filter.mpr ⟨mem_peersInConnection t e hmem.1, hblk'⟩
  exact hmem.2 _ hin rfl

/-- Effects of the frustrating-connection purge. -/
theorem frustratingPurgeStep_eff (env : Env) (t : St) :
    (frustratingPurgeStep env t).dat = t.dat ∧
    (frustratingPurgeStep env t).db = t.db ∧
    (frustratingPurgeStep env t).staging = t.staging ∧
    (∀ e ∈ (frustratingPurgeStep env t).hub, e ∈ t.hub) := by
  unfold frustratingPurgeStep
  rw [discFold_eq]
  exact ⟨Eq.refl _, Eq.refl _, Eq.refl _, fun e he => ((mem_filterFold_hub _ _ _).mp he).1⟩

/-- Effects of the hour purge. -/
theorem hourPurgeStep_eff (env : Env) (t : St) :
    (hourPurgeStep env t).dat = t.dat ∧
    (hourPurgeStep env t).db = t.db ∧
    (hourPurgeStep env t).staging = t.staging ∧
    (∀ e ∈ (hourPurgeStep env t).hub, e ∈ t.hub) := by
  unfold hourPurgeStep
  rw [discFold_eq]
  exact ⟨Eq.refl _, Eq.refl _, Eq.refl _, fun e he => ((mem_filterFold_hub _ _ _).mp he).1⟩

/-- Effects of the blocked-staged purge. -/
theorem blockedUnstageStep_eff (env : Env) (t : St) :
    (blockedUnstageStep env t).dat = t.dat ∧
    (blockedUnstageStep env t).hub = t.hub ∧
    (blockedUnstageStep env t).db = t.db ∧
    (∀ a ∈ (blockedUnstageStep env t).staging, a ∈ t.staging) := by
  unfold blockedUnstageStep
  rw [unstageFold_eq]
  exact ⟨Eq.refl _, Eq.refl _, Eq.refl _,
    fun a ha => ((mem_filterFold_staging _ _ _).mp ha).1⟩

/-- Effects of the LAN aging purge. -/
theorem lanAgeStep_eff (env : Env) (t : St) :
    (lanAgeStep env t).dat = t.dat ∧
    (lanAgeStep env t).hub = t.hub ∧
    (lanAgeStep env t).db = t.db ∧
    (∀ a ∈ (lanAgeStep env t).staging, a ∈ t.staging) := by
  unfold lanAgeStep
  rw [unstageFold_eq]
  exact ⟨Eq.refl _, Eq.refl _, Eq.refl _,
    fun a ha => ((mem_filterFold_staging _ _ _).mp ha).1⟩

/-- Effects of the Bluetooth aging purge. -/
theorem btAgeStep_eff (env : Env) (t : St) :
    (btAgeStep env t).dat = t.dat ∧
    (btAgeStep env t).hub = t.hub ∧
    (btAgeStep env t).db = t.db ∧
    (∀ a ∈ (btAgeStep env t).staging, a ∈ t.staging) := by
  unfold btAgeStep
  rw [unstageFold_eq]
  exact ⟨Eq.refl _, Eq.refl _, Eq.refl _,
    fun a ha => ((mem_filterFold_staging _ _ _).mp ha).1⟩

/-- After the blocked-staged purge no staged peer is blocked, for states
whose staged addresses lie outside the hub. -/
theorem blockedUnstage_clean (env : Env) (t : St)
    (hdisj : ∀ a ∈ t.staging, a ∉ t.hub.map Prod.fst) :
    ∀ a ∈ (blockedUnstageStep env t).staging, weBlockThem env (a, t.dat a) = false := by
  intro a ha
  unfold blockedUnstageStep at ha
  rw [unstageFold_eq] at ha
  have hmem := (mem_filterFold_staging _ _ _).mp ha
  by_contra hblk
  have hblk' : weBlockThem env (a, t.dat a) = true := by
    cases h : weBlockThem env (a, t.dat a)
    · exact absurd h hblk
    · rfl
  have hconn : (a, t.dat a) ∈ peersConnectableStaging t :=
    mem_peersConnectableStaging t a hmem.1 (hdisj a hmem.1)
  have hin : (a, t.dat a) ∈ (peersConnectableStaging t).filter (weBlockThem env) :=
    List.mem_filter.mpr ⟨hconn, hblk'⟩
  exact hmem.2 _ hin (Eq.refl _)

/-- Effects of the autoconnect-false staging block: hub and DB untouched,
record keys unchanged, and every staged address was staged before or lies
outside the hub. -/
theorem stageDbStep_eff (env : Env) (s : St) :
    (stageDbStep env s).hub = s.hub ∧
    (stageDbStep env s).db = s.db ∧
    (∀ x, ((stageDbStep env s).dat x).key = (s.dat x).key) ∧
    (∀ a ∈ s.staging, a ∈ (stageDbStep env s).staging) ∧
    (∀ a ∈ (stageDbStep env s).staging, a ∈ s.staging ∨ hubStateOf s a = none) ∧
    (∀ a ∈ s.staging, (stageDbStep env s).dat a = s.dat a) := by
  unfold stageDbStep
  have hL : ∀ p ∈ ((peersConnectableDb s).filter (fun p => !weBlockThem env p)).filter
      (fun p => p.2.autoconnect == false), p.2.key = (s.dat p.1).key := by
    intro p hp
    have hp1 := (List.mem_filter.mp hp).1
    have hp2 := (List.mem_filter.mp hp1).1
    obtain ⟨a, ha, rfl⟩ := List.mem_map.mp hp2
    exact Eq.refl _
  obtain ⟨h1, h2, h3, h4, h5, h6⟩ := stageFold_props env _ s hL
  exact ⟨h1, h2, h3, h4, h5, h6⟩

/-- After `updateStagingNow` the hub is untouched and no staged address is
blocked, provided staged addresses started outside the hub. -/
theorem updateStagingNow_blocked (env : Env) (s : St)
    (hdisj : ∀ a ∈ s.staging, a ∉ s.hub.map Prod.fst) :
    (updateStagingNow env s).hub = s.hub ∧
    (updateStagingNow env s).dat = (stageDbStep env s).dat ∧
    (∀ a ∈ (updateStagingNow env s).staging,
      weBlockThem env (a, (updateStagingNow env s).dat a) = false) := by
  obtain ⟨e1hub, e1db, e1key, e1fwd, e1back, e1pres⟩ := stageDbStep_eff env s
  have hdisj1 : ∀ a ∈ (stageDbStep env s).staging,
      a ∉ (stageDbStep env s).hub.map Prod.fst := by
    intro a ha
    rw [e1hub]
    rcases e1back a ha with h | h
    · exact hdisj a h
    · exact (hubStateOf_eq_none_iff s a).mp h
  have hclean2 := blockedUnstage_clean env (stageDbStep env s) hdisj1
  obtain ⟨e2dat, e2hub, e2db, e2back⟩ := blockedUnstageStep_eff env (stageDbStep env s)
  obtain ⟨e3dat, e3hub, e3db, e3back⟩ :=
    lanAgeStep_eff env (blockedUnstageStep env (stageDbStep env s))
  obtain ⟨e4dat, e4hub, e4db, e4back⟩ :=
    btAgeStep_eff env (lanAgeStep env (blockedUnstageStep env (stageDbStep env s)))
  have hdat : (updateStagingNow env s).dat = (stageDbStep env s).dat := by
    show (btAgeStep env (lanAgeStep env (blockedUnstageStep env (stageDbStep env s)))).dat = _
    rw [e4dat, e3dat, e2dat]
  refine ⟨?_, hdat, ?_⟩
  · show (btAgeStep env (lanAgeStep env (blockedUnstageStep env (stageDbStep env s)))).hub = s.hub
    rw [e4hub, e3hub, e2hub, e1hub]
  · intro a ha
    have ha' : a ∈ (blockedUnstageStep env (stageDbStep env s)).staging :=
      e3back a (e4back a ha)
    rw [hdat]
    exact hclean2 a ha'

/-- After `updateHubNow` the record snapshot is unchanged, staging has only
shrunk, and no in-connection peer is blocked. -/
theorem updateHubNow_blocked (env : Env) (t : St) :
    (updateHubNow env t).dat = t.dat ∧
    (∀ a ∈ (updateHubNow env t).staging, a ∈ t.staging) ∧
    (∀ e ∈ (updateHubNow env t).hub, weBlockThem env (e.1, t.dat e.1) = false) := by
  have rp : TickRel t (hubPasses env t) := tickRel_hubPasses env t
  obtain ⟨sf_dat, sf_db, sf_stag⟩ := stagedFollowStep_eff env (hubPasses env t)
  obtain ⟨bd_dat, bd_db, bd_stag⟩ :=
    blockedDisconnectStep_eff env (stagedFollowStep env (hubPasses env t))
  obtain ⟨fr_dat, fr_db, fr_stag, fr_hub⟩ :=
    frustratingPurgeStep_eff env
      (blockedDisconnectStep env (stagedFollowStep env (hubPasses env t)))
  obtain ⟨hr_dat, hr_db, hr_stag, hr_hub⟩ :=
    hourPurgeStep_eff env (frustratingPurgeStep env
      (blockedDisconnectStep env (stagedFollowStep env (hubPasses env t))))
  have hdat : (updateHubNow env t).dat = t.dat := by
    show (hourPurgeStep env (frustratingPurgeStep env
      (blockedDisconnectStep env (stagedFollowStep env (hubPasses env t))))).dat = t.dat
    rw [hr_dat, fr_dat, bd_dat, sf_dat, rp.1]
  refine ⟨hdat, ?_, ?_⟩
  · intro a ha
    have h1 : a ∈ (blockedDisconnectStep env
        (stagedFollowStep env (hubPasses env t))).staging := by
      rw [← fr_stag, ← hr_stag]
      exact ha
    rw [bd_stag] at h1
    exact rp.2 a (sf_stag a h1)
  · intro e he
    have h1 : e ∈ (blockedDisconnectStep env
        (stagedFollowStep env (hubPasses env t))).hub :=
      fr_hub e (hr_hub e he)
    have h2 := blockedDisconnect_clean env (stagedFollowStep env (hubPasses env t)) e h1
    rw [sf_dat, rp.1] at h2
    exact h2

/-- C5: after one full tick no blocked address remains in staging and no
blocked address remains in the hub (for states where staged addresses start
outside the hub, the invariant the InterpoolGlue maintains). -/
theorem C5_no_blocked_after_tick (env : Env) (s : St)
    (hdisj : ∀ a ∈ s.staging, a ∉ s.hub.map Prod.fst) :
    (∀ a ∈ (updateHubNow env (updateStagingNow env s)).staging,
      weBlockThem env (a, (updateHubNow env (updateStagingNow env s)).dat a) = false) ∧
    (∀ e ∈ (updateHubNow env (updateStagingNow env s)).hub,
      weBlockThem env (e.1, (updateHubNow env (updateStagingNow env s)).dat e.1) = false) := by
  obtain ⟨s4hub, s4dat, s4clean⟩ := updateStagingNow_blocked env s hdisj
  obtain ⟨hdat, hstag, hhubclean⟩ := updateHubNow_blocked env (updateStagingNow env s)
  constructor
  · intro a ha
    rw [hdat]
    exact s4clean a (hstag a ha)
  · intro e he
    rw [hdat]
    exact hhubclean e he

/-- C5 witness: on the concrete blocked state the tick leaves no blocked
address staged or in connection. -/
theorem C5_no_blocked_after_tick_witness :
    (∀ a ∈ stC5.staging, a ∉ stC5.hub.map Prod.fst) ∧
    (∀ a ∈ (updateHubNow envC5 (updateStagingNow envC5 stC5)).staging,
      weBlockThem envC5 (a, (updateHubNow envC5 (updateStagingNow envC5 stC5)).dat a) = false) ∧
    (∀ e ∈ (updateHubNow envC5 (updateStagingNow envC5 stC5)).hub,
      weBlockThem envC5 (e.1, (updateHubNow envC5 (updateStagingNow envC5 stC5)).dat e.1) = false) :=
  ⟨by decide,
    (C5_no_blocked_after_tick envC5 stC5 (by decide)).1,
    (C5_no_blocked_after_tick envC5 stC5 (by decide)).2⟩

/-- Connectable staging peers are staged addresses paired with their
records. -/
theorem mem_connectableStaging_shape (t : St) (p : Peer)
    (hp : p ∈ peersConnectableStaging t) : p = (p.1, t.dat p.1) ∧ p.1 ∈ t.staging := by
  unfold peersConnectableStaging at hp
  obtain ⟨x, hx, rfl⟩ := List.mem_map.mp hp
  exact ⟨rfl, (List.mem_filter.mp hx).1⟩

/-- Membership in staging after the blocked-staged purge. -/
theorem blockedUnstage_mem (env : Env) (t : St) (a : Nat) :
    a ∈ (blockedUnstageStep env t).staging ↔
      a ∈ t.staging ∧
      ∀ p ∈ (peersConnectableStaging t).filter (weBlockThem env), a ≠ p.1 := by
  unfold blockedUnstageStep
  rw [unstageFold_eq]
  exact mem_filterFold_staging _ _ _

/-- Membership in staging after the LAN aging purge. -/
theorem lanAge_mem (env : Env) (t : St) (a : Nat) :
    a ∈ (lanAgeStep env t).staging ↔
      a ∈ t.staging ∧
      ∀ p ∈ ((peersConnectableStaging t).filter
          (fun p => p.2.ptype == some "lan")).filter
          (fun p => p.2.stagingUpdated + 10000 < env.now), a ≠ p.1 := by
  unfold lanAgeStep
  rw [unstageFold_eq]
  exact mem_filterFold_staging _ _ _

/-- Membership in staging after the Bluetooth aging purge. -/
theorem btAge_mem (env : Env) (t : St) (a : Nat) :
    a ∈ (btAgeStep env t).staging ↔
      a ∈ t.staging ∧
      ∀ p ∈ ((peersConnectableStaging t).filter
          (fun p => p.2.ptype == some "bt")).filter
          (fun p => p.2.stagingUpdated + 30000 < env.now), a ≠ p.1 := by
  unfold btAgeStep
  rw [unstageFold_eq]
  exact mem_filterFold_staging _ _ _

/-- C6: every run of `updateStagingNow` unstages each staged LAN entry older
than 10 s and each staged Bluetooth entry older than 30 s, and keeps staged
entries younger than those bounds (that are not blocked and not live in the
hub). -/
theorem C6_staged_aging (env : Env) (s : St) (a : Nat)
    (hstaged : a ∈ s.staging) (hnothub : a ∉ s.hub.map Prod.fst) :
    ((s.dat a).ptype = some "lan" → (s.dat a).stagingUpdated + 10000 < env.now →
      a ∉ (updateStagingNow env s).staging) ∧
    ((s.dat a).ptype = some "bt" → (s.dat a).stagingUpdated + 30000 < env.now →
      a ∉ (updateStagingNow env s).staging) ∧
    (weBlockThem env (a, s.dat a) = false →
      ¬((s.dat a).ptype = some "lan" ∧ (s.dat a).stagingUpdated + 10000 < env.now) →
      ¬((s.dat a).ptype = some "bt" ∧ (s.dat a).stagingUpdated + 30000 < env.now) →
      a ∈ (updateStagingNow env s).staging) := by
  obtain ⟨e1hub, e1db, e1key, e1fwd, e1back, e1pres⟩ := stageDbStep_eff env s
  have hd1 : (stageDbStep env s).dat a = s.dat a := e1pres a hstaged
  have hs1 : a ∈ (stageDbStep env s).staging := e1fwd a hstaged
  have hnothub1 : a ∉ (stageDbStep env s).hub.map Prod.fst := by
    rw [e1hub]; exact hnothub
  obtain ⟨e2dat, e2hub, e2db, e2back⟩ := blockedUnstageStep_eff env (stageDbStep env s)
  obtain ⟨e3dat, e3hub, e3db, e3back⟩ :=
    lanAgeStep_eff env (blockedUnstageStep env (stageDbStep env s))
  obtain ⟨e4dat, e4hub, e4db, e4back⟩ :=
    btAgeStep_eff env (lanAgeStep env (blockedUnstageStep env (stageDbStep env s)))
  have hd2 : (blockedUnstageStep env (stageDbStep env s)).dat a = s.dat a := by
    rw [e2dat, hd1]
  have hd3 : (lanAgeStep env (blockedUnstageStep env (stageDbStep env s))).dat a = s.dat a := by
    rw [e3dat, hd2]
  have hnothub2 : a ∉ (blockedUnstageStep env (stageDbStep env s)).hub.map Prod.fst := by
    rw [e2hub]; exact hnothub1
  have hnothub3 : a ∉ (lanAgeStep env (blockedUnstageStep env
      (stageDbStep env s))).hub.map Prod.fst := by
    rw [e3hub]; exact hnothub2
  refine ⟨?_, ?_, ?_⟩
  · intro hlan hold hfin
    have h3 : a ∈ (lanAgeStep env (blockedUnstageStep env (stageDbStep env s))).staging :=
      e4back a hfin
    have h3' := (lanAge_mem env (blockedUnstageStep env (stageDbStep env s)) a).mp h3
    have hconn : (a, (blockedUnstageStep env (stageDbStep env s)).dat a)
        ∈ peersConnectableStaging (blockedUnstageStep env (stageDbStep env s)) :=
      mem_peersConnectableStaging _ a h3'.1 hnothub2
    have hin : (a, (blockedUnstageStep env (stageDbStep env s)).dat a) ∈
        ((peersConnectableStaging (blockedUnstageStep env (stageDbStep env s))).filter
          (fun p => p.2.ptype == some "lan")).filter
          (fun p => p.2.stagingUpdated + 10000 < env.now) := by
      refine List.mem_filter.mpr ⟨List.mem_filter.mpr ⟨hconn, ?_⟩, ?_⟩
      · rw [hd2]
        simpa using hlan
      · rw [hd2]
        simpa using hold
    exact h3'.2 _ hin (Eq.refl _)
  · intro hbt hold hfin
    have h4' := (btAge_mem env (lanAgeStep env (blockedUnstageStep env
      (stageDbStep env s))) a).mp hfin
    have hconn : (a, (lanAgeStep env (blockedUnstageStep env (stageDbStep env s))).dat a)
        ∈ peersConnectableStaging (lanAgeStep env (blockedUnstageStep env
          (stageDbStep env s))) :=
      mem_peersConnectableStaging _ a h4'.1 hnothub3
    have hin : (a, (lanAgeStep env (blockedUnstageStep env (stageDbStep env s))).dat a) ∈
        ((peersConnectableStaging (lanAgeStep env (blockedUnstageStep env
            (stageDbStep env s)))).filter
          (fun p => p.2.ptype == some "bt")).filter
          (fun p => p.2.stagingUpdated + 30000 < env.now) := by
      refine List.mem_filter.mpr ⟨List.mem_filter.mpr ⟨hconn, ?_⟩, ?_⟩
      · rw [hd3]
        simpa using hbt
      · rw [hd3]
        simpa using hold
    exact h4'.2 _ hin (Eq.refl _)
  · intro hnb hnl hnbt
    have hmem2 : a ∈ (blockedUnstageStep env (stageDbStep env s)).staging := by
      refine (blockedUnstage_mem env (stageDbStep env s) a).mpr ⟨hs1, ?_⟩
      intro p hp hap
      have hfp := List.mem_filter.mp hp
      obtain ⟨hshape, hpstag⟩ := mem_connectableStaging_shape _ p hfp.1
      have hblk := hfp.2
      rw [hshape] at hblk
      rw [← hap] at hblk
      rw [hd1] at hblk
      rw [hnb] at hblk
      cases hblk
    have hmem3 : a ∈ (lanAgeStep env (blockedUnstageStep env (stageDbStep env s))).staging := by
      refine (lanAge_mem env (blockedUnstageStep env (stageDbStep env s)) a).mpr ⟨hmem2, ?_⟩
      intro p hp hap
      have hfp := List.mem_filter.mp hp
      have hfp2 := List.mem_filter.mp hfp.1
      obtain ⟨hshape, hpstag⟩ := mem_connectableStaging_shape _ p hfp2.1
      have htype := hfp2.2
      have hage := hfp.2
      rw [hshape, ← hap, hd2] at htype hage
      refine hnl ⟨?_, ?_⟩
      · simpa using htype
      · simpa using hage
    show a ∈ (btAgeStep env (lanAgeStep env (blockedUnstageStep env
      (stageDbStep env s)))).staging
    refine (btAge_mem env (lanAgeStep env (blockedUnstageStep env
      (stageDbStep env s))) a).mpr ⟨hmem3, ?_⟩
    intro p hp hap
    have hfp := List.mem_filter.mp hp
    have hfp2 := List.mem_filter.mp hfp.1
    obtain ⟨hshape, hpstag⟩ := mem_connectableStaging_shape _ p hfp2.1
    have htype := hfp2.2
    have hage := hfp.2
    rw [hshape, ← hap, hd3] at htype hage
    refine hnbt ⟨?_, ?_⟩
    · simpa using htype
    · simpa using hage

/-- C6 witness: a LAN peer staged at 0 is still staged after a tick at
9.9 s and unstaged after a tick at 10.1 s. -/
theorem C6_staged_aging_witness :
    (1 ∈ stC6.staging) ∧ (1 ∉ stC6.hub.map Prod.fst) ∧
    1 ∉ (updateStagingNow envC6b stC6).staging ∧
    1 ∈ (updateStagingNow envC6a stC6).staging :=
  ⟨by decide, by decide,
    (C6_staged_aging envC6b stC6 1 (by decide) (by decide)).1 (by decide) (by decide),
    (C6_staged_aging envC6a stC6 1 (by decide) (by decide)).2.2 (by decide) (by decide)
      (by decide)⟩
